import Mathlib

/-! Verification of the `llm-code-fixer` core (`main.js` / `fix-cli.js`).

Shallow embedding of the repair tool's pure core and of its effectful
operations written as explicit state passing over a modelled file system.
External capabilities (the JS parser, the embedding and fix-proposal
services, dynamic `import`, `JSON.parse`, SHA-1) appear as explicit
parameters/oracles; everything the repository's own code computes is
translated from the source.
-/

set_option autoImplicit false

namespace LlmFixer

/-! ## Line splitting: JS `str.split(/\r?\n/)` and `arr.join("\n")` -/

/-- Prepend a character to the first segment of a segment list. -/
def consHead (c : Char) : List (List Char) → List (List Char)
  | [] => [[c]]
  | seg :: segs => (c :: seg) :: segs

/-- Model of `code.split(/\r?\n/)` at the character-list level: a line break is either
`"\n"` or `"\r\n"` (a `'\r'` not immediately followed by `'\n'` stays in the
line, matching the regex). -/
def splitLinesList : List Char → List (List Char)
  | [] => [[]]
  | '\r' :: '\n' :: rest => [] :: splitLinesList rest
  | '\n' :: rest => [] :: splitLinesList rest
  | c :: rest => consHead c (splitLinesList rest)

/-- Model of `lines.join("\n")` at the character-list level. -/
def joinLinesList : List (List Char) → List Char
  | [] => []
  | [l] => l
  | l :: ls => l ++ '\n' :: joinLinesList ls

/-- The text contains no CRLF (`"\r\n"`) sequence. -/
def noCRLF : List Char → Bool
  | [] => true
  | [_] => true
  | c1 :: c2 :: rest => !(c1 = '\r' && c2 = '\n') && noCRLF (c2 :: rest)

/-- Model of `code.split(/\r?\n/)` as a list of strings. -/
def splitLines (s : String) : List String :=
  (splitLinesList s.data).map String.mk

/-- Number of lines of a text, as `split(/\r?\n/).length` computes it. -/
def lineCount (s : String) : Nat :=
  (splitLinesList s.data).length

/-! ## `applyReplaceRange` (main.js lines 410-419), pure content core

```js
function applyReplaceRange(absPath, startLine, endLine, newText) {
  const raw = readText(absPath);
  const lines = raw.split(/\r?\n/);
  const clampedStart = Math.max(1, Math.min(startLine, lines.length));
  const clampedEnd = Math.max(clampedStart, Math.min(endLine, lines.length));
  const before = lines.slice(0, clampedStart - 1);
  const after = lines.slice(clampedEnd);
  const result = [...before, ...newText.split(/\r?\n/), ...after].join("\n");
  writeText(absPath, result);
}
```
The file-system read/write is handled by the caller model (`applyEdits`);
this is the pure text transformation. -/

def clampStart (lineCnt : Nat) (startLine : Int) : Int :=
  max 1 (min startLine (lineCnt : Int))

def clampEnd (lineCnt : Nat) (clampedStart endLine : Int) : Int :=
  max clampedStart (min endLine (lineCnt : Int))

def replaceRangeContent (raw : String) (startLine endLine : Int) (newText : String) : String :=
  let lines := splitLinesList raw.data
  let clampedStart := clampStart lines.length startLine
  let clampedEnd := clampEnd lines.length clampedStart endLine
  let before := lines.take (clampedStart - 1).toNat
  let after := lines.drop clampedEnd.toNat
  String.mk (joinLinesList (before ++ splitLinesList newText.data ++ after))

/-! ## `cosineSim` (main.js lines 132-142)

```js
function cosineSim(a = [], b = []) {
  if (a.length !== b.length) return 0;
  let dot = 0, na = 0, nb = 0;
  for (let i = 0; i < a.length; i++) {
    dot += a[i] * b[i]; na += a[i] * a[i]; nb += b[i] * b[i];
  }
  if (na === 0 || nb === 0) return 0;
  return dot / (Math.sqrt(na) * Math.sqrt(nb));
}
```
JS double-precision arithmetic is idealised as exact arithmetic: vector
entries are rationals and the final quotient lives in the reals. -/

/-- Dot product of two equal-length vectors (the loop's `dot` accumulator). -/
def dotp : List ℚ → List ℚ → ℚ
  | a :: as, b :: bs => a * b + dotp as bs
  | _, _ => 0

/-- Squared norm (`na` accumulator). -/
def normSq (a : List ℚ) : ℚ := dotp a a

noncomputable def cosineSim (a b : List ℚ) : ℝ :=
  if a.length ≠ b.length then 0
  else if normSq a = 0 ∨ normSq b = 0 then 0
  else ((dotp a b : ℚ) : ℝ) / (Real.sqrt ((normSq a : ℚ) : ℝ) * Real.sqrt ((normSq b : ℚ) : ℝ))

/-! ## Chunk extraction (main.js lines 175-228)

The parser (`recast`/`babel`) is an external capability: its outcome is the
`ast` argument — `none` when `parseAst` returns `null` (parse failure), and
otherwise the ordered list of function-like nodes the visitor encounters,
each carrying its optional source location (`node.loc`), `node.id?.name`,
the enclosing `parent.node.key?.name`, and `node.type`.  SHA-1
(`crypto.createHash("sha1")`) is likewise external and appears as the
`sha1` argument; the code only relies on it being a function of its input
string. -/

def MAX_CHUNK_LEN : Nat := 3000

/-- JS `s.slice(0, n)` for a nonnegative `n`. -/
def strTake (s : String) (n : Nat) : String := String.mk (s.data.take n)

/-- JS `path.basename`: the final path component. -/
def basename (p : String) : String :=
  String.mk ((p.data.reverse.takeWhile (fun c => c ≠ '/')).reverse)

/-- JS `a || b` on an optional string: falsy (`undefined` or `""`) falls
through to `b`. -/
def jsOrS (a : Option String) (b : String) : String :=
  match a with
  | some s => if s = "" then b else s
  | none => b

/-- A function-like AST node as the visitor sees it. -/
structure FnNode where
  loc : Option (Nat × Nat)
  idName : Option String
  parentKeyName : Option String
  nodeType : String
deriving DecidableEq

structure Chunk where
  id : String
  filePath : String
  kind : String
  name : String
  startLine : Nat
  endLine : Nat
  text : String
deriving DecidableEq

/-- The template-literal hash key: the backtick string
`filePath:start-end` fed to `sha1` (identical format for function and
whole-file chunks). -/
def chunkKey (filePath : String) (s e : Nat) : String :=
  filePath ++ ":" ++ toString s ++ "-" ++ toString e

/-- One visited function node's chunk: skipped (`none`) when the node has no
`loc`; otherwise slices the original source by the 1-based inclusive line
range, truncates to `MAX_CHUNK_LEN`, and derives name and id as the source
does. -/
def functionChunk (sha1 : String → String) (code filePath : String) (n : FnNode) : Option Chunk :=
  match n.loc with
  | none => none
  | some (s, e) =>
    let lines := splitLinesList code.data
    let text := String.mk (joinLinesList ((lines.drop (s - 1)).take (e - (s - 1))))
    some
      { id := sha1 (chunkKey filePath s e)
        filePath := filePath
        kind := "function"
        name := jsOrS n.idName
          (jsOrS n.parentKeyName (if n.nodeType = "" then "Function" else n.nodeType))
        startLine := s
        endLine := e
        text := strTake text MAX_CHUNK_LEN }

/-- Source `extractFunctionChunks`: collect per-node chunks, and when the AST
is absent (parse failure) or zero function chunks were produced, fall back to
exactly one whole-file chunk spanning line 1 to the last line. -/
def extractFunctionChunks (sha1 : String → String) (code : String) (filePath : String)
    (ast : Option (List FnNode)) : List Chunk :=
  let chunks :=
    match ast with
    | none => []
    | some nodes => nodes.filterMap (functionChunk sha1 code filePath)
  if chunks.isEmpty then
    [{ id := sha1 (chunkKey filePath 1 (splitLinesList code.data).length)
       filePath := filePath
       kind := "file"
       name := basename filePath
       startLine := 1
       endLine := (splitLinesList code.data).length
       text := strTake code MAX_CHUNK_LEN }]
  else chunks

/-- A concrete function-like node carrying no source location. -/
def loclessNode : FnNode :=
  { loc := none, idName := none, parentKeyName := none,
    nodeType := "ArrowFunctionExpression" }

/-- A concrete named function node spanning lines 1-2. -/
def namedFnNode : FnNode :=
  { loc := some (1, 2), idName := some "g", parentKeyName := none,
    nodeType := "FunctionDeclaration" }

/-- The function chunk `namedFnNode` yields from the two-line file `a\nb`. -/
def fnChunkG : Chunk :=
  { id := "f.js:1-2", filePath := "f.js", kind := "function", name := "g",
    startLine := 1, endLine := 2, text := "a\nb" }

/-- The whole-file chunk of the unparsable two-line file `x\ny`. -/
def fileChunkXY : Chunk :=
  { id := "f.js:1-2", filePath := "f.js", kind := "file", name := "f.js",
    startLine := 1, endLine := 2, text := "x\ny" }

/-! ## File system model and the Edit Applier (main.js lines 399-458)

The file system is an association list from absolute paths to contents.
`backupFile` copies into the OS temp dir and swallows its own failures, and
`ensureDir` only creates directories, so neither affects the modelled map;
both are elided.  A raised JS exception is an `Except.error`. -/

def FS : Type := List (String × String)

def fsRead (fs : FS) (p : String) : Option String :=
  match fs with
  | [] => none
  | (q, c) :: rest => if q = p then some c else fsRead rest p

def fsWrite (fs : FS) (p c : String) : FS :=
  match fs with
  | [] => [(p, c)]
  | (q, d) :: rest => if q = p then (p, c) :: rest else (q, d) :: fsWrite rest p c

/-- Source `readText` (`fs.readFileSync`): throws when the file is absent. -/
def readText (fs : FS) (p : String) : Except String String :=
  match fsRead fs p with
  | some c => .ok c
  | none => .error ("ENOENT: no such file or directory, open " ++ p)

/-- JS `path.isAbsolute` for POSIX paths. -/
def isAbsolutePath (p : String) : Bool :=
  match p.data with
  | '/' :: _ => true
  | _ => false

/-- Line 424: `path.isAbsolute(e.path) ? e.path : path.join(ROOT_DIR, e.path)`. -/
def resolveAbs (rootDir p : String) : String :=
  if isAbsolutePath p then p else rootDir ++ "/" ++ p

/-- An edit as proposed by the fix service.  Every field is optional: a JSON
object may omit any of them (an absent field is JS `undefined`, and a field
of the wrong primitive type behaves like an absent one at each of the
source's `typeof`/truthiness checks modelled below). -/
structure Edit where
  path : Option String := none
  strategy : Option String := none
  new_content : Option String := none
  startLine : Option Int := none
  endLine : Option Int := none
  new_text : Option String := none
deriving DecidableEq

/-- Per-edit outcome record `{path, ok, strategy|reason}`. -/
structure EditResult where
  path : String
  ok : Bool
  strategy : Option String := none
  reason : Option String := none
deriving DecidableEq

/-- The body of `applyEdits`' per-edit `try` block: the strategy dispatch of
lines 429-439 with the catch of line 440-442 folded in (everything thrown
inside the `try` — missing strategy fields, `readText` on a missing file —
becomes a failure record).  `!e.startLine` / `!e.endLine` are JS truthiness:
an absent field and the number `0` are both falsy. -/
def applyOneEdit (fs : FS) (abs : String) (e : Edit) : FS × EditResult :=
  match e.strategy with
  | some "replace_range" =>
    match e.new_text, e.startLine, e.endLine with
    | some t, some s, some en =>
      if s = 0 ∨ en = 0 then
        (fs, { path := abs, ok := false, reason := some "missing fields for replace_range" })
      else
        match readText fs abs with
        | .ok raw =>
          (fsWrite fs abs (replaceRangeContent raw s en t),
            { path := abs, ok := true, strategy := some "replace_range" })
        | .error msg => (fs, { path := abs, ok := false, reason := some msg })
    | _, _, _ =>
      (fs, { path := abs, ok := false, reason := some "missing fields for replace_range" })
  | some "replace_file" =>
    match e.new_content with
    | some c =>
      (fsWrite fs abs c, { path := abs, ok := true, strategy := some "replace_file" })
    | none => (fs, { path := abs, ok := false, reason := some "missing new_content" })
  | _ => (fs, { path := abs, ok := false, reason := some "unknown strategy" })

/-- Source `applyEdits` (lines 421-445).  The per-edit `try` starts only at
line 425: the computation of `abs` on line 424 is outside it, so an edit
whose `path` is not a string makes `path.isAbsolute` throw a `TypeError`
that escapes the whole batch. -/
def applyEdits (rootDir : String) (fs : FS) : List Edit → Except String (FS × List EditResult)
  | [] => .ok (fs, [])
  | e :: rest =>
    match e.path with
    | none => .error "TypeError: the path argument must be of type string"
    | some p =>
      let abs := resolveAbs rootDir p
      let step := applyOneEdit fs abs e
      match applyEdits rootDir step.1 rest with
      | .ok (fs', results) => .ok (fs', step.2 :: results)
      | .error m => .error m

/-- An edit whose `path` field is absent. -/
def badPathEdit : Edit := { strategy := some "replace_file", new_content := some "x" }

/-- A well-formed whole-file edit. -/
def okFileEdit : Edit :=
  { path := some "/a.js", strategy := some "replace_file", new_content := some "hi" }

/-- An edit with a path but an unknown strategy. -/
def unknownStrategyEdit : Edit := { path := some "b.js", strategy := some "frobnicate" }

/-- The `replace_range(1, 1, "X\r\nY")` edit on the 1-line file `/a.js`. -/
def crlfRangeEdit : Edit :=
  { path := some "/a.js", strategy := some "replace_range",
    startLine := some 1, endLine := some 1, new_text := some "X\r\nY" }

/-- The `replace_file` edit writing the same text `"X\r\nY"`. -/
def crlfFileEdit : Edit :=
  { path := some "/a.js", strategy := some "replace_file", new_content := some "X\r\nY" }

/-! ## JSON values, `proposeFixes`, `help`, `applyFix`
(main.js lines 329-397 and 449-458)

A JSON value as `JSON.parse` produces it.  `JSON.parse` itself is a JS
builtin whose outcome we pass in as `Option Json`: `none` models a parse
throw, `some j` a successful parse.  The network call to the fix model and
the vector search feeding it are external; the `svcParsed` argument is the
parse outcome of whatever content the service returned. -/

inductive Json where
  | null
  | bool (b : Bool)
  | num (n : Int)
  | str (s : String)
  | arr (elems : List Json)
  | obj (fields : List (String × Json))

/-- JS truthiness of a JSON value (`NaN` has no JSON literal, so numbers are
falsy exactly at 0). -/
def jsonTruthy : Json → Bool
  | .null => false
  | .bool b => b
  | .num n => n != 0
  | .str s => s != ""
  | .arr _ => true
  | .obj _ => true

def lookupField : List (String × Json) → String → Option Json
  | [], _ => none
  | (k', v) :: rest, k => if k' = k then some v else lookupField rest k

/-- JS `j?.edits`: `undefined` (here folded into `Json.null`, which behaves
identically at every use — truthiness, `Array.isArray`, `?.length`) unless
`j` is an object with an `edits` field. -/
def jsGetEdits (j : Json) : Json :=
  match j with
  | .obj fields => (lookupField fields "edits").getD Json.null
  | _ => Json.null

def isJsonArray : Json → Bool
  | .arr _ => true
  | _ => false

/-- String field access: `undefined` when absent or not a string (every
`typeof x === "string"` check in the source then fails, like for an absent
field). -/
def jGetStr (j : Json) (k : String) : Option String :=
  match j with
  | .obj fields =>
    match lookupField fields k with
    | some (.str s) => some s
    | _ => none
  | _ => none

/-- Numeric field access, `undefined` when absent or not a number. -/
def jGetInt (j : Json) (k : String) : Option Int :=
  match j with
  | .obj fields =>
    match lookupField fields k with
    | some (.num n) => some n
    | _ => none
  | _ => none

/-- One JSON array element read as an edit.  A non-object element has every
field `undefined`; its missing `path` then raises in `applyEdits` exactly as
in JS. -/
def jsonToEdit (j : Json) : Edit :=
  { path := jGetStr j "path"
    strategy := jGetStr j "strategy"
    new_content := jGetStr j "new_content"
    startLine := jGetInt j "startLine"
    endLine := jGetInt j "endLine"
    new_text := jGetStr j "new_text" }

/-- The `for (const e of edits)` iteration domain.  An array iterates its
elements; a string iterates its characters (each a primitive, so every edit
field is `undefined`); any other value is not iterable and throws a
`TypeError` out of `applyEdits`. -/
def jsonToEditList : Json → Except String (List Edit)
  | .arr xs => .ok (xs.map jsonToEdit)
  | .str s => .ok (s.data.map (fun _ => jsonToEdit Json.null))
  | _ => .error "TypeError: edits is not iterable"

/-- The recovery value of lines 393-396: `{ edits: [] }`. -/
def emptyEditsJson : Json := Json.obj [("edits", Json.arr [])]

/-- Source `proposeFixes`, reduced to its own computation (lines 390-396):
the request assembly and the model call are external; `content` is whatever
the service answered and `svcParsed` its `JSON.parse` outcome.  Only a parse
throw is caught and recovered as `{ edits: [] }`; a successfully parsed
value of any shape is returned as is. -/
def proposeFixes (svcParsed : Option Json) : Json :=
  match svcParsed with
  | some j => j
  | none => emptyEditsJson

structure HelpRes where
  proposal : Json
  results : List EditResult

/-- Source `help` (lines 449-453): propose, then apply
`proposal?.edits || []`. -/
def help (rootDir : String) (fs : FS) (svcParsed : Option Json) :
    Except String (FS × HelpRes) :=
  let proposal := proposeFixes svcParsed
  let editsJson := jsGetEdits proposal
  let editsVal := if jsonTruthy editsJson then editsJson else Json.arr []
  match jsonToEditList editsVal with
  | .error m => .error m
  | .ok edits =>
    match applyEdits rootDir fs edits with
    | .error m => .error m
    | .ok (fs', results) => .ok (fs', { proposal := proposal, results := results })

/-- Source `applyFix` (lines 455-458): reject a falsy argument or a
non-array `edits` field with an empty result list, else apply. -/
def applyFix (rootDir : String) (fs : FS) (fixJson : Option Json) :
    Except String (FS × List EditResult) :=
  match fixJson with
  | none => .ok (fs, [])
  | some j =>
    if jsonTruthy j then
      match jsGetEdits j with
      | .arr xs => applyEdits rootDir fs (xs.map jsonToEdit)
      | _ => .ok (fs, [])
    else .ok (fs, [])

/-- A parsed, well-formed JSON response that does not have the
`{ edits: [...] }` shape. -/
def wrongShapeJson : Json := Json.obj [("foo", Json.num 1)]

/-- A parsed response whose `edits` field is truthy but not an array. -/
def truthyNonArrayEditsJson : Json := Json.obj [("edits", Json.num 5)]

/-! ## The Repair Loop: `tryq` and `fixAndTestFile` (main.js lines 460-484, 538-610)

Dynamic `import` and the execution of the chosen entry point are external
effects: their outcomes arrive through a per-round oracle `env : Nat →
RoundIn` giving, for round `r`, the `importFresh` outcome, the
`readText(absPath)` outcome, the parse outcome of the fix service's
response for that round's single `help` call, and the entry point's
execution outcome.  The module value only matters through the shape the
entry-point resolution inspects, captured by `JsVal`.  The index-building
preamble of `fixAndTestFile` (lines 547-552) touches only the external
embedding index and is elided. -/

/-- The shape of one exported JS value as the resolution code tests it:
a function, a truthy non-function, or a falsy value (with `undefined` for
an absent export folded into `falsy`, matching both the `||` chain and the
`typeof` check). -/
inductive JsVal where
  | fn
  | truthy
  | falsy
deriving DecidableEq

def isTruthyVal : JsVal → Bool
  | .falsy => false
  | _ => true

def isFn : JsVal → Bool
  | .fn => true
  | _ => false

/-- A freshly imported module: the value of `mod[testExportName]`, of
`mod.default`, and the ordered export values `Object.keys(mod)` iterates. -/
structure Mod where
  named : JsVal
  defaultExport : JsVal
  allExports : List JsVal
deriving DecidableEq

/-- JS `a || b`. -/
def jsOrV (a b : JsVal) : JsVal := if isTruthyVal a then a else b

/-- The fallback IIFE of lines 576-582: the first export whose value is a
function, else `null` (falsy). -/
def firstFnExport (l : List JsVal) : JsVal :=
  match l.find? isFn with
  | some v => v
  | none => .falsy

/-- Lines 576-582: `mod[testExportName] || mod.default || firstFnExport`. -/
def candidate (m : Mod) : JsVal :=
  jsOrV m.named (jsOrV m.defaultExport (firstFnExport m.allExports))

/-- Result of `tryq`: `{ok, out}` on success, `{ok, error, fix}` on caught
failure. -/
structure TryqRes where
  ok : Bool
  out : Option String
  error : Option String
  fix : Option HelpRes

/-- Successful `tryq` result `{ok: true, out}`. -/
def tryqOkRes (out : String) : TryqRes :=
  { ok := true, out := some out, error := none, fix := none }

/-- Failed `tryq` result `{ok: false, error, fix}`. -/
def tryqFailRes (msg : String) (fix : HelpRes) : TryqRes :=
  { ok := false, out := none, error := some msg, fix := some fix }

/-- Source `tryq` (lines 460-484): run the function inside a try; on throw,
call `help` (an exception from `help` itself happens inside the `catch`
block, after the catch, so it propagates), then — line 474 — if the
proposal's edit array is non-empty, `applyFix` applies the same edits a
second time; finally return the structured failure. -/
def tryq (rootDir : String) (fs : FS) (execRes : Except String String)
    (svcParsed : Option Json) : Except String (FS × TryqRes) :=
  match execRes with
  | .ok out => .ok (fs, tryqOkRes out)
  | .error msg =>
    match help rootDir fs svcParsed with
    | .error m => .error m
    | .ok (fs', fix) =>
      match jsGetEdits fix.proposal with
      | Json.arr xs =>
        if xs.length ≠ 0 then
          match applyFix rootDir fs' (some fix.proposal) with
          | .error m => .error m
          | .ok (fs'', _) => .ok (fs'', tryqFailRes msg fix)
        else .ok (fs', tryqFailRes msg fix)
      | _ => .ok (fs', tryqFailRes msg fix)

/-- Oracle outcomes for one round. -/
structure RoundIn where
  importRes : Except String Mod
  readRes : Except String String
  svcParsed : Option Json
  execRes : Except String String

/-- One history entry: `{round, error, fixRes}` for reload/entry-point
failures, `{round, attempt}` for executed rounds. -/
structure RoundRecord where
  round : Nat
  error : Option String
  fixRes : Option HelpRes
  attempt : Option TryqRes

/-- Line 609: `lastError?.message || "unknown"`. -/
def lastErrMsg : Option String → String
  | some m => if m = "" then "unknown" else m
  | none => "unknown"

/-- The structured terminal value `{ok, rounds, out|error, history}`. -/
structure FixResult where
  ok : Bool
  rounds : Nat
  out : Option String
  error : Option String
  history : List RoundRecord

/-- Line 585's error message. -/
def noRunnableMsg (relativePath testExportName : String) : String :=
  "No runnable export found in " ++ relativePath ++ " (tried " ++
    testExportName ++ ", default, and first export)"

/-- History entry `{round, error: String(err), fixRes}` of lines 569/589. -/
def errRecord (round : Nat) (errMsg : String) (fixRes : HelpRes) : RoundRecord :=
  { round := round, error := some errMsg, fixRes := some fixRes, attempt := none }

/-- History entry `{round, attempt}` of line 598. -/
def attemptRecord (round : Nat) (attempt : TryqRes) : RoundRecord :=
  { round := round, error := none, fixRes := none, attempt := some attempt }

/-- Terminal failure value of line 609. -/
def failResult (maxRounds : Nat) (lastError : Option String)
    (hist : List RoundRecord) : FixResult :=
  { ok := false, rounds := maxRounds, out := none,
    error := some (lastErrMsg lastError), history := hist }

/-- Terminal success value of line 601. -/
def successResult (round : Nat) (attempt : TryqRes)
    (hist : List RoundRecord) : FixResult :=
  { ok := true, rounds := round, out := attempt.out, error := none, history := hist }

/-- The `for (let round = 1; round <= maxRounds; round++)` body of
`fixAndTestFile` (lines 557-607) plus the terminal return of line 609,
with `fuel` counting the remaining iterations.  Each branch mirrors the
source: import failure → read file, `help`, record, break on zero results;
no runnable export → same with the line-585 error; otherwise read file,
`tryq`, record, return success or continue (with no zero-edit early stop
on this path). -/
def fixLoop (rootDir relPath testName : String) (env : Nat → RoundIn) (maxRounds : Nat) :
    Nat → Nat → FS → Option String → List RoundRecord → Except String FixResult
  | 0, _, _, lastError, hist => .ok (failResult maxRounds lastError hist)
  | fuel + 1, round, fs, _lastError, hist =>
    match (env round).importRes with
    | .error errMsg =>
      match (env round).readRes with
      | .error m => .error m
      | .ok _fileContent =>
        match help rootDir fs (env round).svcParsed with
        | .error m => .error m
        | .ok (fs', fixRes) =>
          if fixRes.results.length = 0 then
            .ok (failResult maxRounds (some errMsg)
              (hist ++ [errRecord round errMsg fixRes]))
          else
            fixLoop rootDir relPath testName env maxRounds fuel (round + 1) fs'
              (some errMsg) (hist ++ [errRecord round errMsg fixRes])
    | .ok mod =>
      if isFn (candidate mod) then
        match (env round).readRes with
        | .error m => .error m
        | .ok _fileContent =>
          match tryq rootDir fs (env round).execRes (env round).svcParsed with
          | .error m => .error m
          | .ok (fs', attempt) =>
            if attempt.ok then
              .ok (successResult round attempt (hist ++ [attemptRecord round attempt]))
            else
              fixLoop rootDir relPath testName env maxRounds fuel (round + 1) fs'
                attempt.error (hist ++ [attemptRecord round attempt])
      else
        match (env round).readRes with
        | .error m => .error m
        | .ok _fileContent =>
          match help rootDir fs (env round).svcParsed with
          | .error m => .error m
          | .ok (fs', fixRes) =>
            if fixRes.results.length = 0 then
              .ok (failResult maxRounds (some (noRunnableMsg relPath testName))
                (hist ++ [errRecord round (noRunnableMsg relPath testName) fixRes]))
            else
              fixLoop rootDir relPath testName env maxRounds fuel (round + 1) fs'
                (some (noRunnableMsg relPath testName))
                (hist ++ [errRecord round (noRunnableMsg relPath testName) fixRes])

/-- Source `fixAndTestFile`: run the loop from round 1 with empty history. -/
def fixAndTestFile (rootDir relPath testName : String) (env : Nat → RoundIn)
    (maxRounds : Nat) (fs : FS) : Except String FixResult :=
  fixLoop rootDir relPath testName env maxRounds maxRounds 1 fs none []

/-- The edit list one round's `help` call will iterate: the parsed proposal's
`edits || []` as an iteration domain. -/
def editsOf (svcParsed : Option Json) : Except String (List Edit) :=
  jsonToEditList
    (if jsonTruthy (jsGetEdits (proposeFixes svcParsed)) then
      jsGetEdits (proposeFixes svcParsed)
    else Json.arr [])

/-- The service response is benign: its edit list is iterable and every edit
carries a string `path`, so `help` cannot throw. -/
def svcOk (svcParsed : Option Json) : Bool :=
  match editsOf svcParsed with
  | .ok es => es.all (fun e => e.path.isSome)
  | .error _ => false

/-- A module whose named test export is a function. -/
def fnOnlyMod : Mod := { named := .fn, defaultExport := .falsy, allExports := [.fn] }

/-- Scenario: the file imports, the entry point resolves and always throws,
and the proposal service always returns `{ edits: [] }`. -/
def alwaysFailEnv : Nat → RoundIn := fun _ =>
  { importRes := .ok fnOnlyMod
    readRes := .ok "file content"
    svcParsed := some emptyEditsJson
    execRes := .error "boom" }

/-- Scenario: the import always fails and the proposal service always
returns `{ edits: [] }`. -/
def importFailEnv : Nat → RoundIn := fun _ =>
  { importRes := .error "SyntaxError: Unexpected token"
    readRes := .ok "broken content"
    svcParsed := some emptyEditsJson
    execRes := .error "unused" }

/-- A proposal whose single edit is an object without a `path` field. -/
def missingPathProposal : Json := Json.obj [("edits", Json.arr [Json.obj []])]

/-- Scenario: the import fails and the proposal contains an edit with no
`path`. -/
def escapeEnv : Nat → RoundIn := fun _ =>
  { importRes := .error "SyntaxError: Unexpected token"
    readRes := .ok "broken content"
    svcParsed := some missingPathProposal
    execRes := .error "unused" }

/-! ## Theorems -/

theorem noCRLF_tail (c : Char) (rest : List Char) (h : noCRLF (c :: rest) = true) :
    noCRLF rest = true := by
  cases rest with
  | nil => rfl
  | cons c2 cs =>
    simp only [noCRLF, Bool.and_eq_true] at h
    exact h.2

theorem consHead_ne_nil (c : Char) (ls : List (List Char)) : consHead c ls ≠ [] := by
  cases ls with
  | nil => simp [consHead]
  | cons seg segs => simp [consHead]

theorem splitLinesList_ne_nil (l : List Char) : splitLinesList l ≠ [] := by
  induction l using splitLinesList.induct with
  | case1 => simp [splitLinesList]
  | case2 rest ih => simp [splitLinesList]
  | case3 rest ih => simp [splitLinesList]
  | case4 c rest h1 h2 ih =>
    simp only [splitLinesList]
    exact consHead_ne_nil c _

theorem splitLinesList_length_pos (l : List Char) : 0 < (splitLinesList l).length :=
  List.length_pos.mpr (splitLinesList_ne_nil l)

/-- Joining the split lines with `"\n"` recovers the original text exactly
when the text contains no CRLF sequence (CRLF breaks are normalised to LF). -/
theorem joinLinesList_splitLinesList (l : List Char) (h : noCRLF l = true) :
    joinLinesList (splitLinesList l) = l := by
  induction l using splitLinesList.induct with
  | case1 => rfl
  | case2 rest ih =>
    simp [noCRLF] at h
  | case3 rest ih =>
    have hrest : noCRLF rest = true := noCRLF_tail _ _ h
    have hjoin := ih hrest
    simp only [splitLinesList]
    cases hs : splitLinesList rest with
    | nil => exact absurd hs (splitLinesList_ne_nil rest)
    | cons seg segs =>
      rw [hs] at hjoin
      cases segs with
      | nil => simpa [joinLinesList] using hjoin
      | cons s2 ss => simpa [joinLinesList] using hjoin
  | case4 c rest h1 h2 ih =>
    have hrest : noCRLF rest = true := noCRLF_tail _ _ h
    have hjoin := ih hrest
    simp only [splitLinesList]
    cases hs : splitLinesList rest with
    | nil => exact absurd hs (splitLinesList_ne_nil rest)
    | cons seg segs =>
      rw [hs] at hjoin
      cases segs with
      | nil =>
        simp only [joinLinesList] at hjoin
        simp [consHead, joinLinesList, hjoin]
      | cons s2 ss =>
        simp only [joinLinesList] at hjoin
        simp [consHead, joinLinesList, hjoin]

theorem lineCount_pos (s : String) : 0 < lineCount s :=
  splitLinesList_length_pos s.data

/-- C4: for every file content and every `replace_range` edit, `startLine` and
`endLine` are clamped into `[1, lineCount]` with `clampedEnd ≥ clampedStart`;
the addressed inclusive 1-based line range is removed and replaced by the
lines of `new_text`, with all lines before and after preserved verbatim; in
particular, on a 5-line file, `replace_range(2, 3, "X\nY")` yields original
line 1, then `X`, then `Y`, then original lines 4 and 5, in that order. -/
theorem replaceRange_clamps_and_splices (raw newText : String) (startLine endLine : Int) :
    (1 ≤ clampStart (lineCount raw) startLine ∧
     clampStart (lineCount raw) startLine ≤ (lineCount raw : Int) ∧
     clampStart (lineCount raw) startLine ≤
       clampEnd (lineCount raw) (clampStart (lineCount raw) startLine) endLine ∧
     clampEnd (lineCount raw) (clampStart (lineCount raw) startLine) endLine ≤
       (lineCount raw : Int)) ∧
    (replaceRangeContent raw startLine endLine newText).data =
      joinLinesList
        ((splitLinesList raw.data).take
            (clampStart (lineCount raw) startLine - 1).toNat ++
          splitLinesList newText.data ++
          (splitLinesList raw.data).drop
            (clampEnd (lineCount raw) (clampStart (lineCount raw) startLine) endLine).toNat) ∧
    replaceRangeContent "l1\nl2\nl3\nl4\nl5" 2 3 "X\nY" = "l1\nX\nY\nl4\nl5" := by
  have hn : 0 < lineCount raw := lineCount_pos raw
  refine ⟨⟨?_, ?_, ?_, ?_⟩, rfl, by decide⟩
  · exact le_max_left 1 _
  · simp only [clampStart]
    have h1 : (1 : Int) ≤ (lineCount raw : Int) := by exact_mod_cast hn
    exact max_le h1 (min_le_right _ _)
  · exact le_max_left _ _
  · simp only [clampStart, clampEnd]
    have h1 : (1 : Int) ≤ (lineCount raw : Int) := by exact_mod_cast hn
    exact max_le (max_le h1 (min_le_right _ _)) (min_le_right _ _)

/-- C5 (amended): `replace_range(1, N, text)` on an N-line file yields exactly
`text` — the same content `replace_file(text)` writes — whenever `text`
contains no CRLF sequence (the range path re-joins lines with `"\n"`,
normalising any `"\r\n"` in `text`, so the restriction is necessary). -/
theorem replaceRange_full_file_eq_replace_file (raw text : String)
    (h : noCRLF text.data = true) :
    replaceRangeContent raw 1 (lineCount raw) text = text := by
  have hn : 0 < (splitLinesList raw.data).length := splitLinesList_length_pos raw.data
  have hcs : clampStart (splitLinesList raw.data).length 1 = 1 := by
    simp only [clampStart]
    have h1 : (1 : Int) ≤ ((splitLinesList raw.data).length : Int) := by exact_mod_cast hn
    omega
  have hce : clampEnd (splitLinesList raw.data).length 1
      ((lineCount raw : Nat) : Int) = ((splitLinesList raw.data).length : Int) := by
    simp only [clampEnd, lineCount]
    have h1 : (1 : Int) ≤ ((splitLinesList raw.data).length : Int) := by exact_mod_cast hn
    omega
  simp only [replaceRangeContent, hcs, hce]
  rw [show ((1 : Int) - 1).toNat = 0 by rfl]
  rw [Int.toNat_natCast]
  simp only [List.take_zero, List.drop_length, List.nil_append, List.append_nil]
  rw [joinLinesList_splitLinesList text.data h]

theorem normSq_nil : normSq [] = 0 := rfl

theorem normSq_cons (x : ℚ) (xs : List ℚ) : normSq (x :: xs) = x * x + normSq xs := rfl

theorem normSq_nonneg (a : List ℚ) : 0 ≤ normSq a := by
  induction a with
  | nil => simp [normSq_nil]
  | cons x xs ih =>
    rw [normSq_cons]
    have := mul_self_nonneg x
    linarith

theorem normSq_eq_zero_all_zero (a : List ℚ) (h : normSq a = 0) : ∀ x ∈ a, x = 0 := by
  induction a with
  | nil => simp
  | cons x xs ih =>
    rw [normSq_cons] at h
    have h1 := mul_self_nonneg x
    have h2 := normSq_nonneg xs
    have hx : x * x = 0 := by linarith
    have hxs : normSq xs = 0 := by linarith
    intro y hy
    rcases List.mem_cons.mp hy with rfl | hy
    · exact mul_self_eq_zero.mp hx
    · exact ih hxs y hy

/-- C9: the cosine similarity is exactly 0 whenever either vector has zero
(squared) norm — including the length-mismatch guard that also returns 0 —
and the similarity of a non-zero vector with itself is exactly 1 (in the
idealised real arithmetic standing in for floating point). -/
theorem cosineSim_zero_norm_and_self_one (a b : List ℚ) :
    (normSq a = 0 ∨ normSq b = 0 → cosineSim a b = 0) ∧
    ((∃ x ∈ a, x ≠ 0) → cosineSim a a = 1) := by
  constructor
  · intro h
    by_cases hl : a.length ≠ b.length
    · simp [cosineSim, hl]
    · simp [cosineSim, hl, h]
  · intro h
    have hnz : normSq a ≠ 0 := by
      intro h0
      obtain ⟨x, hx, hxne⟩ := h
      exact hxne (normSq_eq_zero_all_zero a h0 x hx)
    have hpos : (0 : ℝ) ≤ ((normSq a : ℚ) : ℝ) := by
      exact_mod_cast normSq_nonneg a
    have hcast : ((normSq a : ℚ) : ℝ) ≠ 0 := by
      exact_mod_cast hnz
    unfold cosineSim
    rw [if_neg (by simp), if_neg (by simp [hnz])]
    rw [Real.mul_self_sqrt hpos]
    show ((normSq a : ℚ) : ℝ) / ((normSq a : ℚ) : ℝ) = 1
    exact div_self hcast

/-- Witness for C9 at concrete inputs. -/
theorem cosineSim_witness :
    (normSq [(1 : ℚ)] = 0 ∨ normSq [(0 : ℚ)] = 0) ∧
    cosineSim [(1 : ℚ)] [(0 : ℚ)] = 0 ∧
    (∃ x ∈ [(1 : ℚ)], x ≠ 0) ∧
    cosineSim [(1 : ℚ)] [(1 : ℚ)] = 1 := by
  have hz : normSq [(0 : ℚ)] = 0 := by norm_num [normSq_cons, normSq_nil]
  have hex : ∃ x ∈ [(1 : ℚ)], x ≠ 0 := ⟨1, List.mem_singleton.mpr rfl, one_ne_zero⟩
  exact ⟨Or.inr hz,
    (cosineSim_zero_norm_and_self_one [(1 : ℚ)] [(0 : ℚ)]).1 (Or.inr hz),
    hex,
    (cosineSim_zero_norm_and_self_one [(1 : ℚ)] [(1 : ℚ)]).2 hex⟩

/-- C7: on parse failure (no AST), or when no located function-like node
exists, the extractor returns exactly one chunk of kind `file` spanning
line 1 to the file's last line; the function is pure, hence independent of
any prior state. -/
theorem extract_fallback_single_file_chunk (sha1 : String → String) (code filePath : String)
    (ast : Option (List FnNode))
    (h : ast = none ∨ ∃ nodes, ast = some nodes ∧ ∀ n ∈ nodes, n.loc = none) :
    extractFunctionChunks sha1 code filePath ast =
      [{ id := sha1 (chunkKey filePath 1 (lineCount code))
         filePath := filePath
         kind := "file"
         name := basename filePath
         startLine := 1
         endLine := lineCount code
         text := strTake code MAX_CHUNK_LEN }] := by
  rcases h with rfl | ⟨nodes, rfl, hloc⟩
  · rfl
  · have hfil : nodes.filterMap (functionChunk sha1 code filePath) = [] := by
      rw [List.filterMap_eq_nil_iff]
      intro n hn
      simp [functionChunk, hloc n hn]
    simp [extractFunctionChunks, hfil, lineCount]

/-- Witness for C7: a parsed two-line file whose only function node carries
no location falls back to the single whole-file chunk. -/
theorem extract_fallback_witness :
    ((some [loclessNode] : Option (List FnNode)) = none ∨
      ∃ nodes, (some [loclessNode] : Option (List FnNode)) = some nodes ∧
        ∀ n ∈ nodes, n.loc = none) ∧
    extractFunctionChunks (fun s => s) "a\nb" "src/f.js" (some [loclessNode]) =
      [{ id := "src/f.js:1-2"
         filePath := "src/f.js"
         kind := "file"
         name := "f.js"
         startLine := 1
         endLine := 2
         text := "a\nb" }] := by
  refine ⟨Or.inr ⟨_, rfl, by decide⟩, ?_⟩
  have h := extract_fallback_single_file_chunk (fun s => s) "a\nb" "src/f.js"
    (some [loclessNode]) (Or.inr ⟨_, rfl, by decide⟩)
  rw [h]
  decide

/-- Every produced chunk's id is the hash of its own
`(filePath, startLine, endLine)` key. -/
theorem chunk_id_eq_key_hash (sha1 : String → String) (code filePath : String)
    (ast : Option (List FnNode)) (c : Chunk)
    (hc : c ∈ extractFunctionChunks sha1 code filePath ast) :
    c.id = sha1 (chunkKey c.filePath c.startLine c.endLine) := by
  unfold extractFunctionChunks at hc
  by_cases hemp :
      (match ast with
        | none => ([] : List Chunk)
        | some nodes => nodes.filterMap (functionChunk sha1 code filePath)).isEmpty
  · rw [if_pos hemp] at hc
    rw [List.mem_singleton] at hc
    subst hc
    rfl
  · rw [if_neg hemp] at hc
    cases ast with
    | none => simp at hemp
    | some nodes =>
      simp only at hc
      obtain ⟨n, hn, hfc⟩ := List.mem_filterMap.mp hc
      unfold functionChunk at hfc
      cases hl : n.loc with
      | none => rw [hl] at hfc; simp at hfc
      | some se =>
        obtain ⟨s, e⟩ := se
        rw [hl] at hfc
        simp only [Option.some.injEq] at hfc
        subst hfc
        rfl

/-- C8: the chunk id is a pure function of `(filePath, startLine, endLine)` —
any two chunks produced by the extractor (from any inputs, under the same
hash function) that agree on file path, start line and end line have equal
ids, regardless of kind, name or text. -/
theorem chunkId_pure_function (sha1 : String → String)
    (code filePath code' filePath' : String)
    (ast ast' : Option (List FnNode)) (c c' : Chunk)
    (hc : c ∈ extractFunctionChunks sha1 code filePath ast)
    (hc' : c' ∈ extractFunctionChunks sha1 code' filePath' ast')
    (hp : c.filePath = c'.filePath) (hs : c.startLine = c'.startLine)
    (he : c.endLine = c'.endLine) :
    c.id = c'.id := by
  rw [chunk_id_eq_key_hash sha1 code filePath ast c hc,
    chunk_id_eq_key_hash sha1 code' filePath' ast' c' hc', hp, hs, he]

/-- Witness for C8: a `function` chunk at lines 1-2 of a parsed file and the
`file` chunk of an unparsable two-line file share the location, hence the
id, despite different kind, name and text. -/
theorem chunkId_pure_function_witness :
    (fnChunkG ∈ extractFunctionChunks (fun s => s) "a\nb" "f.js" (some [namedFnNode])) ∧
    (fileChunkXY ∈ extractFunctionChunks (fun s => s) "x\ny" "f.js" none) ∧
    fnChunkG.id = fileChunkXY.id := by
  refine ⟨by decide, by decide, ?_⟩
  exact chunkId_pure_function (fun s => s) "a\nb" "f.js" "x\ny" "f.js"
    (some [namedFnNode]) none fnChunkG fileChunkXY
    (by decide) (by decide) rfl rfl rfl

/-- Counterexample to C3 as stated: an edit with a missing required field —
its `path` — does not produce a per-edit failure record; it raises a
`TypeError` past `applyEdits` and aborts the batch (no result list at all). -/
theorem applyEdits_missing_path_raises :
    applyEdits "/root" [] [badPathEdit] =
      Except.error "TypeError: the path argument must be of type string" := rfl

theorem applyOneEdit_path (fs : FS) (abs : String) (e : Edit) :
    (applyOneEdit fs abs e).2.path = abs := by
  unfold applyOneEdit
  split
  · split
    · split
      · rfl
      · split <;> rfl
    · rfl
  · split <;> rfl
  · rfl

theorem applyOneEdit_unknown_strategy (fs : FS) (abs : String) (e : Edit)
    (h1 : e.strategy ≠ some "replace_range") (h2 : e.strategy ≠ some "replace_file") :
    (applyOneEdit fs abs e).2 =
      { path := abs, ok := false, reason := some "unknown strategy" } := by
  unfold applyOneEdit
  split
  · exact absurd (by assumption) h1
  · exact absurd (by assumption) h2
  · rfl

/-- C3 (amended): for a batch of edits that all carry a (string) `path`,
`applyEdits` returns exactly one result record per input edit, in order
(result `i` addresses the resolved absolute path of edit `i`); an edit with
an unknown strategy yields a per-edit failure record carrying reason
`unknown strategy` and processing continues for the rest.  The amendment:
an edit missing its `path` instead raises a `TypeError` past `applyEdits`
(see the counterexample), so the no-abort guarantee holds only for edits
whose `path` is present. -/
theorem applyEdits_one_result_per_edit (rootDir : String) (fs : FS) (edits : List Edit)
    (h : ∀ e ∈ edits, e.path.isSome) :
    ∃ fs' results, applyEdits rootDir fs edits = .ok (fs', results) ∧
      results.length = edits.length ∧
      List.Forall₂ (fun (e : Edit) (r : EditResult) =>
        r.path = resolveAbs rootDir (e.path.getD "") ∧
        (e.strategy ≠ some "replace_range" → e.strategy ≠ some "replace_file" →
          r.ok = false ∧ r.reason = some "unknown strategy")) edits results := by
  induction edits generalizing fs with
  | nil => exact ⟨fs, [], rfl, rfl, List.Forall₂.nil⟩
  | cons e rest ih =>
    have hp : e.path.isSome := h e (List.mem_cons_self e rest)
    obtain ⟨p, hpe⟩ := Option.isSome_iff_exists.mp hp
    have hrest : ∀ x ∈ rest, x.path.isSome := fun x hx => h x (List.mem_cons_of_mem e hx)
    obtain ⟨fs', results, heq, hlen, hfa⟩ :=
      ih (applyOneEdit fs (resolveAbs rootDir p) e).1 hrest
    refine ⟨fs', (applyOneEdit fs (resolveAbs rootDir p) e).2 :: results, ?_, ?_, ?_⟩
    · simp only [applyEdits, hpe, heq]
    · simpa using hlen
    · refine List.Forall₂.cons ⟨?_, ?_⟩ hfa
      · rw [applyOneEdit_path, hpe]
        rfl
      · intro h1 h2
        have := applyOneEdit_unknown_strategy fs (resolveAbs rootDir p) e h1 h2
        rw [this]
        exact ⟨rfl, rfl⟩

/-- Witness for C3 (amended) at a concrete two-edit batch containing one
unknown-strategy edit. -/
theorem applyEdits_one_result_per_edit_witness :
    (∀ e ∈ [okFileEdit, unknownStrategyEdit], e.path.isSome) ∧
    ∃ fs' results,
      applyEdits "/root" [] [okFileEdit, unknownStrategyEdit] = .ok (fs', results) ∧
      results.length = ([okFileEdit, unknownStrategyEdit] : List Edit).length ∧
      List.Forall₂ (fun (e : Edit) (r : EditResult) =>
        r.path = resolveAbs "/root" (e.path.getD "") ∧
        (e.strategy ≠ some "replace_range" → e.strategy ≠ some "replace_file" →
          r.ok = false ∧ r.reason = some "unknown strategy"))
        [okFileEdit, unknownStrategyEdit] results :=
  ⟨by decide, applyEdits_one_result_per_edit "/root" [] [okFileEdit, unknownStrategyEdit]
    (by decide)⟩

/-- Counterexample to C5 as stated: on the 1-line file `hello`,
`replace_range(1, 1, "X\r\nY")` stores `"X\nY"` (the range path re-splits
`new_text` on `/\r?\n/` and re-joins with `"\n"`, normalising CRLF), while
`replace_file` with the same text stores `"X\r\nY"` verbatim — different
final contents. -/
theorem replaceRange_vs_replaceFile_crlf :
    applyEdits "/root" [("/a.js", "hello")] [crlfRangeEdit] =
      .ok ([("/a.js", "X\nY")],
        [{ path := "/a.js", ok := true, strategy := some "replace_range" }]) ∧
    applyEdits "/root" [("/a.js", "hello")] [crlfFileEdit] =
      .ok ([("/a.js", "X\r\nY")],
        [{ path := "/a.js", ok := true, strategy := some "replace_file" }]) ∧
    ("X\nY" : String) ≠ "X\r\nY" := by
  refine ⟨rfl, rfl, by decide⟩

/-- Counterexample to C6 as stated: a response that parses as JSON but not
as the `{ edits: [...] }` shape is not turned into `{ edits: [] }` — it is
returned unchanged by `proposeFixes`; and when its `edits` field is truthy
but not an array, the failure does surface to the caller: iterating it in
`applyEdits` throws out of `help`. -/
theorem proposeFixes_wrong_shape_not_normalised :
    proposeFixes (some wrongShapeJson) ≠ emptyEditsJson ∧
    help "/root" [] (some truthyNonArrayEditsJson) =
      Except.error "TypeError: edits is not iterable" := by
  refine ⟨?_, rfl⟩
  intro h
  simp only [proposeFixes, wrongShapeJson, emptyEditsJson, Json.obj.injEq,
    List.cons.injEq, Prod.mk.injEq] at h
  exact absurd h.1.1 (by decide)

/-- C6 (amended): only a response whose content fails `JSON.parse` is
recovered as `{ edits: [] }` by `proposeFixes`; a successfully parsed value
of any other shape is returned unchanged, and the caller `help` recovers a
missing/falsy `edits` field as zero applied edits with an empty per-edit
result list (no error). -/
theorem proposeFixes_parse_failure_recovery (rootDir : String) (fs : FS) (j : Json)
    (h : jsonTruthy (jsGetEdits j) = false) :
    proposeFixes none = emptyEditsJson ∧
    proposeFixes (some j) = j ∧
    help rootDir fs (some j) = .ok (fs, { proposal := j, results := [] }) := by
  refine ⟨rfl, rfl, ?_⟩
  simp only [help, proposeFixes, h, if_false, Bool.false_eq_true]
  rfl

/-- Witness for C6 (amended) at the concrete wrong-shape response. -/
theorem proposeFixes_parse_failure_recovery_witness :
    jsonTruthy (jsGetEdits wrongShapeJson) = false ∧
    (proposeFixes none = emptyEditsJson ∧
      proposeFixes (some wrongShapeJson) = wrongShapeJson ∧
      help "/root" [] (some wrongShapeJson) =
        .ok ([], { proposal := wrongShapeJson, results := [] })) :=
  ⟨by decide, proposeFixes_parse_failure_recovery "/root" [] wrongShapeJson (by decide)⟩

/-- C10: `applyFix` returns the empty result list and leaves the file system
untouched when its argument is `null`/`undefined` (or otherwise falsy) or
when its `edits` field is not an array; only a well-formed edit list reaches
`applyEdits` and can write files. -/
theorem applyFix_rejects_malformed (rootDir : String) (fs : FS) (fixJson : Option Json)
    (h : fixJson = none ∨
      ∃ j, fixJson = some j ∧
        (jsonTruthy j = false ∨ isJsonArray (jsGetEdits j) = false)) :
    applyFix rootDir fs fixJson = .ok (fs, []) := by
  rcases h with rfl | ⟨j, rfl, hj | hj⟩
  · rfl
  · simp [applyFix, hj]
  · simp only [applyFix]
    split
    · split
      · rename_i xs hge
        rw [hge] at hj
        simp [isJsonArray] at hj
      · rfl
    · rfl

/-- Witness for C10: a `null` argument and an object whose `edits` field is
the number `5` both produce the empty result list with no write. -/
theorem applyFix_rejects_malformed_witness :
    ((none : Option Json) = none ∨
      ∃ j, (none : Option Json) = some j ∧
        (jsonTruthy j = false ∨ isJsonArray (jsGetEdits j) = false)) ∧
    applyFix "/root" [("/a.js", "hello")] none = .ok ([("/a.js", "hello")], []) ∧
    applyFix "/root" [("/a.js", "hello")] (some truthyNonArrayEditsJson) =
      .ok ([("/a.js", "hello")], []) := by
  refine ⟨Or.inl rfl, applyFix_rejects_malformed "/root" _ none (Or.inl rfl), ?_⟩
  exact applyFix_rejects_malformed "/root" _ (some truthyNonArrayEditsJson)
    (Or.inr ⟨truthyNonArrayEditsJson, rfl, Or.inr (by decide)⟩)

theorem help_zero_edits (rootDir : String) (fs : FS) (p : Option Json)
    (h : editsOf p = .ok []) :
    help rootDir fs p = .ok (fs, { proposal := proposeFixes p, results := [] }) := by
  simp only [help]
  simp only [editsOf] at h
  rw [h]
  rfl

/-- Counterexample to C1 as stated: with an entry point that always fails at
execution time and a proposal service that always returns zero edits, the
loop does **not** stop after round 1 — the runtime-failure branch has no
zero-edit early stop — so with `maxRounds = 5` it runs 5 rounds (5 history
records) and also reports `rounds = 5`, not 1. -/
theorem fixAndTestFile_no_early_stop_on_exec_failure :
    (fixAndTestFile "/root" "buggy.js" "run" alwaysFailEnv 5 []).toOption.map
        (fun res => (res.ok, res.rounds, res.history.length)) =
      some (false, 5, 5) := rfl

/-- C1 (amended): the zero-applied-edits early stop exists on the
reload-failure path (and, identically, the entry-point-resolution path):
whenever a round's import fails and that round's fix request yields zero
edits, the loop stops at once with `ok = false`, recording exactly that one
round and spending no further rounds. On the runtime-failure path there is
no such stop (see the counterexample), so an always-failing entry point
with a zero-edit proposal service runs all `maxRounds` rounds instead of
exactly 1. -/
theorem import_failure_zero_edits_stops_early (rootDir relPath testName : String)
    (env : Nat → RoundIn) (maxRounds fuel round : Nat) (fs : FS)
    (lastError : Option String) (hist : List RoundRecord) (errMsg : String)
    (himp : (env round).importRes = .error errMsg)
    (hread : ∃ c, (env round).readRes = .ok c)
    (hsvc : editsOf (env round).svcParsed = .ok []) :
    fixLoop rootDir relPath testName env maxRounds (fuel + 1) round fs lastError hist =
      .ok (failResult maxRounds (some errMsg)
        (hist ++ [errRecord round errMsg
          { proposal := proposeFixes (env round).svcParsed, results := [] }])) := by
  obtain ⟨c, hc⟩ := hread
  unfold fixLoop
  rw [himp, hc, help_zero_edits rootDir fs (env round).svcParsed hsvc]
  rfl

/-- Witness for C1 (amended): in the all-rounds-import-fail scenario with a
zero-edit proposal service and `maxRounds = 5`, the loop stops after
exactly one recorded round with `ok = false`. -/
theorem import_failure_zero_edits_stops_early_witness :
    (importFailEnv 1).importRes = .error "SyntaxError: Unexpected token" ∧
    (∃ c, (importFailEnv 1).readRes = .ok c) ∧
    editsOf (importFailEnv 1).svcParsed = .ok [] ∧
    fixLoop "/root" "buggy.js" "run" importFailEnv 5 5 1 [] none [] =
      .ok (failResult 5 (some "SyntaxError: Unexpected token")
        ([] ++ [errRecord 1 "SyntaxError: Unexpected token"
          { proposal := proposeFixes (importFailEnv 1).svcParsed, results := [] }])) := by
  refine ⟨rfl, ⟨_, rfl⟩, rfl, ?_⟩
  exact import_failure_zero_edits_stops_early "/root" "buggy.js" "run" importFailEnv
    5 4 1 [] none [] "SyntaxError: Unexpected token" rfl ⟨_, rfl⟩ rfl

/-- Counterexample to C2 as stated: a failure arising inside a round *does*
escape the loop as a raised exception — here the fix request's edit
application throws a `TypeError` (edit without `path`) inside `help`, which
no `try` in `fixAndTestFile` catches, so the loop's result is a raised
error, not a structured `{ok, rounds, out|error, history}` value. -/
theorem fixAndTestFile_exception_escapes :
    fixAndTestFile "/root" "buggy.js" "run" escapeEnv 5 [] =
      Except.error "TypeError: the path argument must be of type string" := rfl

theorem applyEdits_ok_of_paths (rootDir : String) (fs : FS) (edits : List Edit)
    (h : ∀ e ∈ edits, e.path.isSome) :
    ∃ fs' results, applyEdits rootDir fs edits = .ok (fs', results) := by
  induction edits generalizing fs with
  | nil => exact ⟨fs, [], rfl⟩
  | cons e rest ih =>
    obtain ⟨p, hp⟩ := Option.isSome_iff_exists.mp (h e (List.mem_cons_self e rest))
    obtain ⟨fs', results, heq⟩ :=
      ih (applyOneEdit fs (resolveAbs rootDir p) e).1
        (fun x hx => h x (List.mem_cons_of_mem e hx))
    exact ⟨fs', (applyOneEdit fs (resolveAbs rootDir p) e).2 :: results, by
      simp only [applyEdits, hp, heq]⟩

theorem help_ok_of_svcOk (rootDir : String) (fs : FS) (p : Option Json)
    (h : svcOk p = true) :
    ∃ fs' results, help rootDir fs p =
      .ok (fs', { proposal := proposeFixes p, results := results }) := by
  unfold svcOk at h
  cases he : editsOf p with
  | error m => rw [he] at h; exact absurd h (by simp)
  | ok es =>
    rw [he] at h
    have hall : ∀ e ∈ es, e.path.isSome := fun e hee => List.all_eq_true.mp h e hee
    obtain ⟨fs', results, happ⟩ := applyEdits_ok_of_paths rootDir fs es hall
    refine ⟨fs', results, ?_⟩
    simp only [editsOf] at he
    have hh : help rootDir fs p =
        match applyEdits rootDir fs es with
        | .error m => .error m
        | .ok (fsr, resr) =>
          .ok (fsr, { proposal := proposeFixes p, results := resr }) := by
      simp only [help]
      rw [he]
    rw [hh, happ]

theorem mem_map_jsonToEdit_of_editsOf (p : Option Json) (xs : List Json)
    (hge : jsGetEdits (proposeFixes p) = Json.arr xs) :
    editsOf p = .ok (xs.map jsonToEdit) := by
  simp only [editsOf, hge, jsonTruthy, if_true, jsonToEditList]

theorem applyFix_ok_of_svcOk (rootDir : String) (fs : FS) (p : Option Json)
    (h : svcOk p = true) :
    ∃ fs' results, applyFix rootDir fs (some (proposeFixes p)) = .ok (fs', results) := by
  have hred : applyFix rootDir fs (some (proposeFixes p)) =
      if jsonTruthy (proposeFixes p) = true then
        match jsGetEdits (proposeFixes p) with
        | Json.arr xs => applyEdits rootDir fs (xs.map jsonToEdit)
        | _ => Except.ok (fs, [])
      else Except.ok (fs, []) := rfl
  rw [hred]
  by_cases ht : jsonTruthy (proposeFixes p) = true
  · rw [if_pos ht]
    cases hge : jsGetEdits (proposeFixes p) with
    | arr xs =>
      have hed := mem_map_jsonToEdit_of_editsOf p xs hge
      unfold svcOk at h
      rw [hed] at h
      exact applyEdits_ok_of_paths rootDir fs (xs.map jsonToEdit)
        (fun e hee => List.all_eq_true.mp h e hee)
    | null => exact ⟨fs, [], rfl⟩
    | bool b => exact ⟨fs, [], rfl⟩
    | num n => exact ⟨fs, [], rfl⟩
    | str s => exact ⟨fs, [], rfl⟩
    | obj fields => exact ⟨fs, [], rfl⟩
  · rw [if_neg ht]
    exact ⟨fs, [], rfl⟩

theorem tryq_ok_of_svcOk (rootDir : String) (fs : FS) (execRes : Except String String)
    (p : Option Json) (h : svcOk p = true) :
    ∃ fs' att, tryq rootDir fs execRes p = .ok (fs', att) := by
  cases execRes with
  | ok out => exact ⟨fs, _, rfl⟩
  | error msg =>
    obtain ⟨fs', results, hhelp⟩ := help_ok_of_svcOk rootDir fs p h
    simp only [tryq, hhelp]
    cases hge : jsGetEdits (proposeFixes p) with
    | arr xs =>
      simp only []
      by_cases hz : xs.length ≠ 0
      · rw [if_pos hz]
        obtain ⟨fs'', results', happ⟩ := applyFix_ok_of_svcOk rootDir fs' p h
        rw [happ]
        exact ⟨fs'', _, rfl⟩
      · rw [if_neg hz]
        exact ⟨fs', _, rfl⟩
    | null => exact ⟨fs', _, rfl⟩
    | bool b => exact ⟨fs', _, rfl⟩
    | num n => exact ⟨fs', _, rfl⟩
    | str s => exact ⟨fs', _, rfl⟩
    | obj fields => exact ⟨fs', _, rfl⟩

theorem fixLoop_structured (rootDir relPath testName : String) (env : Nat → RoundIn)
    (maxRounds : Nat)
    (h : ∀ r, (∃ c, (env r).readRes = .ok c) ∧ svcOk (env r).svcParsed = true) :
    ∀ fuel round fs lastError hist,
      ∃ res, fixLoop rootDir relPath testName env maxRounds fuel round fs lastError
        hist = .ok res := by
  intro fuel
  induction fuel with
  | zero => exact fun round fs le hist => ⟨_, rfl⟩
  | succ fuel ih =>
    intro round fs le hist
    obtain ⟨⟨c, hc⟩, hsvc⟩ := h round
    cases himp : (env round).importRes with
    | error errMsg =>
      obtain ⟨fs', results, hhelp⟩ := help_ok_of_svcOk rootDir fs (env round).svcParsed hsvc
      simp only [fixLoop, himp, hc, hhelp]
      by_cases hz : results.length = 0
      · rw [if_pos hz]
        exact ⟨_, rfl⟩
      · rw [if_neg hz]
        exact ih _ _ _ _
    | ok mod =>
      simp only [fixLoop, himp, hc]
      by_cases hfn : isFn (candidate mod) = true
      · rw [if_pos hfn]
        obtain ⟨fs', att, htq⟩ :=
          tryq_ok_of_svcOk rootDir fs (env round).execRes (env round).svcParsed hsvc
        rw [htq]
        simp only []
        by_cases hok : att.ok = true
        · rw [if_pos hok]
          exact ⟨_, rfl⟩
        · rw [if_neg hok]
          exact ih _ _ _ _
      · rw [if_neg hfn]
        obtain ⟨fs', results, hhelp⟩ := help_ok_of_svcOk rootDir fs (env round).svcParsed hsvc
        rw [hhelp]
        simp only []
        by_cases hz : results.length = 0
        · rw [if_pos hz]
          exact ⟨_, rfl⟩
        · rw [if_neg hz]
          exact ih _ _ _ _

/-- C2 (amended): reload failures, entry-point-resolution failures and
execution failures are all captured and the loop returns the structured
`{ok, rounds, out|error, history}` value — provided each round's file read
succeeds and each round's proposal yields an iterable edit list whose edits
all carry a `path`.  Without that proviso a fix-request/edit-application
failure escapes as a raised exception (see the counterexample). -/
theorem fixAndTestFile_structured_result (rootDir relPath testName : String)
    (env : Nat → RoundIn) (maxRounds : Nat) (fs : FS)
    (h : ∀ r, (∃ c, (env r).readRes = .ok c) ∧ svcOk (env r).svcParsed = true) :
    ∃ res, fixAndTestFile rootDir relPath testName env maxRounds fs = .ok res :=
  fixLoop_structured rootDir relPath testName env maxRounds h maxRounds 1 fs none []

/-- Witness for C2 (amended): the always-failing-execution scenario (which
exercises import success, entry-point resolution, execution failure and a
benign zero-edit proposal on every one of its 5 rounds) returns a
structured result. -/
theorem fixAndTestFile_structured_result_witness :
    (∀ r, (∃ c, (alwaysFailEnv r).readRes = .ok c) ∧
      svcOk (alwaysFailEnv r).svcParsed = true) ∧
    ∃ res, fixAndTestFile "/root" "buggy.js" "run" alwaysFailEnv 5 [] = .ok res := by
  have h : ∀ r, (∃ c, (alwaysFailEnv r).readRes = .ok c) ∧
      svcOk (alwaysFailEnv r).svcParsed = true :=
    fun r => ⟨⟨"file content", rfl⟩, rfl⟩
  exact ⟨h, fixAndTestFile_structured_result "/root" "buggy.js" "run" alwaysFailEnv 5 [] h⟩

/-- Witness for C5 (amended) on a concrete 3-line file and CRLF-free text. -/
theorem replaceRange_full_file_eq_replace_file_witness :
    noCRLF ("X\nY" : String).data = true ∧
    replaceRangeContent "a\nb\nc" 1 (lineCount "a\nb\nc") "X\nY" = "X\nY" :=
  ⟨by decide, replaceRange_full_file_eq_replace_file "a\nb\nc" "X\nY" (by decide)⟩

end LlmFixer
